import Mathlib

/-!
# Verification of `image_shuffler.py`

A shallow embedding of the ImageShuffler program (`src/image_shuffler.py`)
and proofs about the claims of its specification.

Conventions of the embedding:
* A directory's contents are a `List Entry`: one `Entry` per direct child,
  carrying its name and whether it is a regular file.  The order of the list
  is the (arbitrary) order in which `glob` enumerates the directory.
* Paths are plain strings.  `os.path.join(d, n)` for a directory `d` that
  does not end in a separator is `d ++ "/" ++ n`.
* The destination directory is represented by the list of names that
  currently exist in it; `os.path.exists(os.path.join(dest_dir, n))` is
  modelled as membership of `n` in that list.
* Machine integers do not occur: Python integers are `Int`/`Nat`.
* `tkinter` variables: `IntVar.get` wrapped in `int(...)` either yields an
  integer or raises `ValueError`; this is modelled as an `Option Int`.
-/

namespace ImageShuffler

/-- A direct child of a directory: its name and whether it is a regular
file (as opposed to a subdirectory).  `glob` and the extension filter of
the program never look at `isFile`; it is carried for stating claims. -/
structure Entry where
  name : String
  isFile : Bool
deriving DecidableEq

/-- `glob`'s pattern `*` treats an entry as hidden (and does not match it)
exactly when its name begins with a dot. -/
def hiddenName (s : String) : Bool :=
  match s.data with
  | [] => false
  | c :: _ => c == '.'

/-- `os.path.join(d, n)` for a directory path `d` not ending in a
separator. -/
def joinPath (d n : String) : String := d ++ "/" ++ n

/-- `os.path.basename`: everything after the last `/`. -/
def basename (p : String) : String :=
  ((p.data.reverse.takeWhile (fun c => c ≠ '/')).reverse).asString

/-- `os.path.splitext` on the character list of a path: split off the
extension `.xyz` of the last path component, except that a last component
consisting only of leading dots (such as `.bashrc` or `..`) has no
extension. -/
def splitextChars (p : List Char) : List Char × List Char :=
  let base := (p.reverse.takeWhile (fun c => c ≠ '/')).reverse
  let revExt := base.reverse.takeWhile (fun c => c ≠ '.')
  if revExt.length = base.length then (p, [])
  else
    let stem := base.take (base.length - revExt.length - 1)
    if stem.all (fun c => c = '.') then (p, [])
    else (p.take (p.length - revExt.length - 1), '.' :: revExt.reverse)

/-- `os.path.splitext` on strings. -/
def splitext (p : String) : String × String :=
  ((splitextChars p.data).1.asString, (splitextChars p.data).2.asString)

/-- `IMAGE_EXTS = {'.jpg', '.jpeg', '.png', '.webp'}` -/
def IMAGE_EXTS : List String := [".jpg", ".jpeg", ".png", ".webp"]

/-- `str.lower`, character by character (`str.lower` agrees with
`Char.toLower` on ASCII, which is all that membership of the result in
`IMAGE_EXTS` can depend on). -/
def lowerStr (s : String) : String :=
  (s.data.map Char.toLower).asString

/-- `is_image_file(path)`: the lower-cased extension is a recognized image
extension. -/
def is_image_file (path : String) : Bool :=
  IMAGE_EXTS.contains (lowerStr (splitext path).2)

/-- `glob(os.path.join(directory, '*'))`: every non-hidden direct child,
as a full path, in directory enumeration order. -/
def globStar (directory : String) (entries : List Entry) : List String :=
  (entries.filter (fun e => !(hiddenName e.name))).map
    (fun e => joinPath directory e.name)

/-- Python's `<` on strings: lexicographic comparison of the code-point
sequences (an executable mirror of `List.lt` on `Char`). -/
def charListLt : List Char → List Char → Bool
  | [], [] => false
  | [], _ :: _ => true
  | _ :: _, [] => false
  | a :: as, b :: bs =>
    if a < b then true
    else if b < a then false
    else charListLt as bs

/-- Python's `<=` on strings (`a <= b` iff `not (b < a)`). -/
def strLe (a b : String) : Bool := !(charListLt b.data a.data)

/-- `list_images(directory)`: glob, keep image files by extension, sort
ascending by full path string (`list.sort` is modelled by insertion sort,
which computes the same stable sorted arrangement). -/
def list_images (directory : String) (entries : List Entry) : List String :=
  List.insertionSort (fun a b => strLe a b = true)
    ((globStar directory entries).filter (fun f => is_image_file f))

/-- `list_images` as the claim words it: the direct children that are
regular files whose lower-cased extension is a recognized image extension
(and no others), sorted ascending by full path string.  Used only to be
compared against `list_images`. -/
def list_images_claim (directory : String) (entries : List Entry) : List String :=
  List.insertionSort (fun a b => strLe a b = true)
    (((entries.filter (fun e => e.isFile)).map
      (fun e => joinPath directory e.name)).filter (fun f => is_image_file f))

/-! ### Amount clamping (`SourceRow.get_amount`) -/

/-- `max(0, min(value, available))` — the clamp at the end of
`SourceRow.get_amount`. -/
def clampAmount (value : Int) (available : Nat) : Int :=
  max 0 (min value (available : Int))

/-- `SourceRow.get_amount`: `int(self.amount_var.get())` either yields an
integer (`some`) or raises `ValueError` (`none`), in which case the value
is treated as `0`; the result is clamped to `[0, available]`. -/
def get_amount (input : Option Int) (available : Nat) : Int :=
  clampAmount (input.getD 0) available

/-! ### Collision resolution (`move_from_row`'s while-loop) -/

/-- The candidate name tried for collision index `i`:
the f-string `f"\x7bbase\x7d_\x7bi\x7d\x7bext\x7d"`. -/
def candName (base ext : String) (i : Nat) : String :=
  base ++ "_" ++ toString i ++ ext

/-- The while-loop of `move_from_row`, with explicit fuel: starting at
index `i`, return the first candidate name that does not exist in the
destination.  The Python loop is unbounded; `resolve` always supplies
enough fuel for it to terminate. -/
def resolveAux (existing : List String) (base ext : String) : Nat → Nat → String
  | 0, i => candName base ext i
  | fuel + 1, i =>
    if candName base ext i ∈ existing then resolveAux existing base ext fuel (i + 1)
    else candName base ext i

/-- Collision resolution: keep the original name if it does not exist in
the destination, otherwise try `base_1`, `base_2`, … until a free name is
found (`base, ext = os.path.splitext(dest_name)`). -/
def resolve (existing : List String) (name : String) : String :=
  if name ∈ existing then
    resolveAux existing (splitext name).1 (splitext name).2 (existing.length + 1) 1
  else name

/-! ### The move executor (`ImageShufflerGUI.move_from_row` / `execute`) -/

/-- A registered source row together with the current contents of its
folder: `path` and `available` are the `SourceRow` attributes (`available`
is the image count captured when the folder was added), `input` is the
outcome of `int(self.amount_var.get())`, and `entries` are the direct
children of the folder at execution time. -/
structure Row where
  path : String
  entries : List Entry
  available : Nat
  input : Option Int
deriving DecidableEq

/-- The state threaded through the per-file loop of `move_from_row`:
the destination folder's contents, the source folder's contents, the
`moved` counter and the log lines, plus two traces of the loop's events
(not variables of the Python code): `movedSrc` — the source paths whose
move succeeded, and `attempted` — every source path the loop ran on. -/
structure MoveState where
  destNames : List String
  srcEntries : List Entry
  moved : Nat
  movedSrc : List String
  attempted : List String
  logs : List String
deriving DecidableEq

/-- One iteration of the per-file loop: resolve the destination name,
then `shutil.move`; a failure (`fails img = some reason`) is caught and
logged and the state is otherwise unchanged, a success moves the file
(removes it from the source folder, adds the resolved name to the
destination) and increments `moved`. -/
def stepFile (fails : String → Option String) (srcPath : String)
    (s : MoveState) (img : String) : MoveState :=
  let resolved := resolve s.destNames (basename img)
  match fails img with
  | none =>
    { destNames := s.destNames ++ [resolved]
      srcEntries := s.srcEntries.filter (fun e => joinPath srcPath e.name ≠ img)
      moved := s.moved + 1
      movedSrc := s.movedSrc ++ [img]
      attempted := s.attempted ++ [img]
      logs := s.logs }
  | some reason =>
    { s with
      attempted := s.attempted ++ [img]
      logs := s.logs ++ [img ++ " の移動に失敗: " ++ reason] }

/-- `ImageShufflerGUI.move_from_row`: list the images afresh, clamp the
amount, skip (with a log notice) when it is zero, otherwise shuffle when
the ordering mode is `random` (the permutation chosen by `random.shuffle`
is supplied by the oracle `shuffle`), take the first `amount` files and
move each one.  Ends by logging `moved/amount`. -/
def move_from_row (fails : String → Option String) (order : String)
    (shuffle : List String → List String) (destNames : List String)
    (row : Row) : MoveState :=
  let images := list_images row.path row.entries
  let amount := (get_amount row.input row.available).toNat
  if amount = 0 then
    { destNames := destNames
      srcEntries := row.entries
      moved := 0
      movedSrc := []
      attempted := []
      logs := [row.path ++ ": 移動枚数が0のためスキップ"] }
  else
    let arranged := if order = "random" then shuffle images else images
    let selected := arranged.take amount
    let final := selected.foldl (stepFile fails row.path)
      { destNames := destNames
        srcEntries := row.entries
        moved := 0
        movedSrc := []
        attempted := []
        logs := [] }
    { final with
      logs := final.logs ++
        [row.path ++ ": " ++ toString final.moved ++ "/" ++ toString amount ++ " 枚を移動"] }

/-- Python truthiness of `self.dest_dir : str | None`. -/
def truthy : Option String → Bool
  | none => false
  | some s => s != ""

/-- The outcome of `ImageShufflerGUI.execute`: the log lines, the
per-source-row outcomes in registration order, and the final contents of
the destination folder. -/
structure ExecResult where
  logs : List String
  results : List MoveState
  finalDest : List String
deriving DecidableEq

/-- One iteration of `execute`'s `for row in self.rows` loop:
`self.move_from_row(row)`, accumulating its logs and outcome and
threading the destination folder contents. -/
def stepRow (fails : String → Option String) (order : String)
    (shuffle : List String → List String) (acc : ExecResult) (row : Row) :
    ExecResult :=
  { logs := acc.logs ++ (move_from_row fails order shuffle acc.finalDest row).logs
    results := acc.results ++ [move_from_row fails order shuffle acc.finalDest row]
    finalDest := (move_from_row fails order shuffle acc.finalDest row).destNames }

/-- `ImageShufflerGUI.execute`: abort with a log message when no
destination is selected, otherwise process every row in registration
order and log the completion marker. -/
def execute (fails : String → Option String) (order : String)
    (shuffle : List String → List String) (dest : Option String)
    (destNames : List String) (rows : List Row) : ExecResult :=
  if truthy dest = false then
    { logs := ["移動先フォルダを選択してください"], results := [], finalDest := destNames }
  else
    let run := rows.foldl (stepRow fails order shuffle)
      { logs := [], results := [], finalDest := destNames }
    { run with logs := run.logs ++ ["--- 完了 ---"] }

/-! ### The GUI folder registration state (`add_folder` / `select_dest`) -/

/-- The part of `ImageShufflerGUI` that the folder-registration claims
are about: the registered source folder paths, in registration order, and
the selected destination folder. -/
structure GuiState where
  rows : List String
  dest : Option String
deriving DecidableEq

/-- `ImageShufflerGUI.add_folder`: ignore a cancelled dialog (empty
path), an already-registered path, and a path equal (after
`os.path.abspath` normalization, supplied as the oracle `abspath`) to the
currently selected destination; otherwise append a new source row. -/
def add_folder (abspath : String → String) (s : GuiState) (path : String) : GuiState :=
  if path = "" then s
  else if path ∈ s.rows then s
  else if truthy s.dest = true ∧ abspath path = abspath (s.dest.getD "") then s
  else { s with rows := s.rows ++ [path] }

/-- `ImageShufflerGUI.select_dest`: a non-empty chosen path becomes the
destination, unconditionally; a cancelled dialog changes nothing. -/
def select_dest (s : GuiState) (path : String) : GuiState :=
  if path = "" then s else { s with dest := some path }

/-- A user interaction with the two folder-registration operations. -/
inductive Op where
  | addFolder (path : String)
  | selectDest (path : String)
deriving DecidableEq

/-- Dispatch one operation. -/
def step (abspath : String → String) (s : GuiState) : Op → GuiState
  | Op.addFolder p => add_folder abspath s p
  | Op.selectDest p => select_dest s p

/-- Run a sequence of operations. -/
def runOps (abspath : String → String) (s : GuiState) (ops : List Op) : GuiState :=
  ops.foldl (step abspath) s

/-- The freshly opened GUI: no sources, no destination. -/
def initState : GuiState := { rows := [], dest := none }

/-! ### Decimal decoding, used to prove `Nat.repr` injective -/

/-- The numeric value of a decimal digit character. -/
def decodeDigit (c : Char) : Nat := c.toNat - 48

/-- The numeric value of a decimal digit string. -/
def decodeDigits (cs : List Char) : Nat :=
  cs.foldl (fun a c => 10 * a + decodeDigit c) 0

/-! ### Concrete fixtures used by the witness theorems -/

/-- A failure oracle that fails exactly on `s/a.jpg`. -/
def failsA : String → Option String :=
  fun f => if f = "s/a.jpg" then some "err" else none

/-- A two-image source row requesting both images. -/
def rowAB : Row :=
  { path := "s", entries := [⟨"a.jpg", true⟩, ⟨"b.jpg", true⟩], available := 2, input := some 2 }

/-- The three-image source row of the name-mode scenario, requesting 2. -/
def rowABC : Row :=
  { path := "src"
    entries := [⟨"a.png", true⟩, ⟨"b.jpg", true⟩, ⟨"c.webp", true⟩]
    available := 3
    input := some 2 }

/-- A source row whose requested amount is zero. -/
def rowZero : Row :=
  { path := "s", entries := [⟨"a.jpg", true⟩], available := 1, input := some 0 }

/-! ### The executable string order agrees with the mathematical one -/

theorem charListLt_iff (x y : List Char) :
    charListLt x y = true ↔ List.Lex (· < ·) x y := by
  induction x generalizing y with
  | nil =>
    cases y with
    | nil => simp [charListLt]
    | cons b bs => simp [charListLt]; exact List.Lex.nil
  | cons a as ih =>
    cases y with
    | nil => simp [charListLt]
    | cons b bs =>
      by_cases hab : a < b
      · simp [charListLt, hab]; exact List.Lex.rel hab
      · by_cases hba : b < a
        · simp [charListLt, hab, hba]
          intro h
          cases h with
          | cons h => exact absurd hba (lt_irrefl _)
          | rel h => exact absurd h hab
        · have hEq : a = b := le_antisymm (not_lt.mp hba) (not_lt.mp hab)
          subst hEq
          simp [charListLt, hab]
          rw [ih bs]
          exact List.Lex.cons_iff.symm

theorem strLe_iff (a b : String) : strLe a b = true ↔ a ≤ b := by
  rw [strLe, Bool.not_eq_true', Bool.eq_false_iff, Ne, charListLt_iff]
  have hlt : (b < a) ↔ List.Lex (· < ·) b.data a.data := String.lt_iff_toList_lt
  constructor
  · intro h
    exact not_lt.mp (fun hba => h (hlt.mp hba))
  · intro h hba
    exact absurd (hlt.mpr hba) (not_lt.mpr h)

theorem strLe_total (a b : String) : strLe a b = true ∨ strLe b a = true := by
  rw [strLe_iff, strLe_iff]; exact le_total a b

theorem strLe_trans {a b c : String} (h₁ : strLe a b = true)
    (h₂ : strLe b c = true) : strLe a c = true := by
  rw [strLe_iff] at h₁ h₂ ⊢; exact le_trans h₁ h₂

/-! ### Path helper lemmas -/

theorem takeWhile_append_of_all {p : Char → Bool} {xs : List Char}
    (h : ∀ x ∈ xs, p x = true) (c : Char) (hc : p c = false) (ys : List Char) :
    (xs ++ c :: ys).takeWhile p = xs := by
  induction xs with
  | nil => simp [List.takeWhile_cons, hc]
  | cons a as ih =>
    have ha : p a = true := h a (List.mem_cons_self a as)
    simp only [List.cons_append, List.takeWhile_cons, ha, if_true]
    rw [ih (fun x hx => h x (List.mem_cons_of_mem a hx))]

theorem basename_joinPath (d n : String) (h : ∀ c ∈ n.data, c ≠ '/') :
    basename (joinPath d n) = n := by
  unfold basename joinPath
  have hdata : (d ++ "/" ++ n).data = d.data ++ ('/' :: n.data) := by
    simp [String.data_append]
  rw [hdata, List.reverse_append]
  have : ('/' :: n.data).reverse = n.data.reverse ++ ['/'] := by simp
  rw [this, List.append_assoc, List.singleton_append]
  have hall : ∀ c ∈ n.data.reverse, (fun c => decide (c ≠ '/')) c = true := by
    intro c hc
    simp only [decide_eq_true_eq]
    exact h c (List.mem_reverse.mp hc)
  rw [takeWhile_append_of_all hall '/' (by simp) _]
  rw [List.reverse_reverse]
  exact String.asString_toList n

theorem joinPath_inj {d a b : String} (h : joinPath d a = joinPath d b) :
    a = b := by
  unfold joinPath at h
  have hd := congrArg String.data h
  simp only [String.data_append] at hd
  have h2 : a.data = b.data := by
    rw [List.append_assoc, List.append_assoc] at hd
    exact List.append_cancel_left (List.append_cancel_left hd)
  exact String.toList_inj.mp h2

/-! ### Characterization of `list_images` -/

theorem list_images_perm (d : String) (entries : List Entry) :
    (list_images d entries).Perm
      ((globStar d entries).filter (fun f => is_image_file f)) :=
  List.perm_insertionSort _ _

theorem list_images_sorted (d : String) (entries : List Entry) :
    List.Sorted (fun a b : String => a ≤ b) (list_images d entries) := by
  haveI h1 : IsTotal String (fun a b => strLe a b = true) := ⟨strLe_total⟩
  haveI h2 : IsTrans String (fun a b => strLe a b = true) :=
    ⟨fun _ _ _ hab hbc => strLe_trans hab hbc⟩
  have hs := List.sorted_insertionSort (fun a b => strLe a b = true)
    ((globStar d entries).filter (fun f => is_image_file f))
  exact hs.imp (fun hab => (strLe_iff _ _).mp hab)

theorem mem_list_images {p d : String} {entries : List Entry} :
    p ∈ list_images d entries ↔
      ∃ e, e ∈ entries ∧ hiddenName e.name = false ∧
        is_image_file (joinPath d e.name) = true ∧ p = joinPath d e.name := by
  rw [(list_images_perm d entries).mem_iff]
  rw [List.mem_filter]
  constructor
  · rintro ⟨hmem, himg⟩
    rcases List.mem_map.mp hmem with ⟨e, he, hpe⟩
    rcases List.mem_filter.mp he with ⟨heE, hhid⟩
    refine ⟨e, heE, ?_, ?_, hpe.symm⟩
    · simpa using hhid
    · rw [hpe]; exact himg
  · rintro ⟨e, heE, hhid, himg, hpe⟩
    constructor
    · exact List.mem_map.mpr ⟨e, List.mem_filter.mpr ⟨heE, by simp [hhid]⟩, hpe.symm⟩
    · rw [hpe]; exact himg

theorem list_images_nodup (d : String) (entries : List Entry)
    (h : (entries.map Entry.name).Nodup) : (list_images d entries).Nodup := by
  rw [(list_images_perm d entries).nodup_iff]
  apply List.Nodup.filter
  have hsub : ((entries.filter (fun e => !(hiddenName e.name))).map Entry.name).Sublist
      (entries.map Entry.name) := (List.filter_sublist _).map _
  have hnames := hsub.nodup h
  have hmm : (entries.filter (fun e => !(hiddenName e.name))).map
        (fun e => joinPath d e.name) =
      ((entries.filter (fun e => !(hiddenName e.name))).map Entry.name).map
        (joinPath d) := by
    rw [List.map_map]; rfl
  show ((entries.filter (fun e => !(hiddenName e.name))).map
    (fun e => joinPath d e.name)).Nodup
  rw [hmm]
  exact hnames.map (fun a b hab => joinPath_inj hab)

/-! ### `Nat.repr` is injective (needed for collision-loop termination) -/

theorem decodeDigit_digitChar : ∀ d, d < 10 → decodeDigit (Nat.digitChar d) = d := by
  decide

theorem toDigitsCore_eq (n : Nat) : ∀ (fuel : Nat) (ds : List Char), n < fuel →
    Nat.toDigitsCore 10 fuel n ds = Nat.toDigits 10 n ++ ds := by
  induction n using Nat.strong_induction_on with
  | _ n ih =>
    intro fuel ds hfuel
    match fuel with
    | f + 1 =>
      by_cases h0 : n / 10 = 0
      · simp [Nat.toDigitsCore, Nat.toDigits, h0]
      · have hn0 : 0 < n := by
          rcases Nat.eq_zero_or_pos n with h | h
          · exact absurd (by simp [h]) h0
          · exact h
        have hdiv : n / 10 < n := Nat.div_lt_self hn0 (by norm_num)
        have hdivf : n / 10 < f := by omega
        have lhs : Nat.toDigitsCore 10 (f + 1) n ds =
            Nat.toDigitsCore 10 f (n / 10) (Nat.digitChar (n % 10) :: ds) := by
          simp [Nat.toDigitsCore, h0]
        have rhs : Nat.toDigits 10 n =
            Nat.toDigitsCore 10 n (n / 10) [Nat.digitChar (n % 10)] := by
          simp [Nat.toDigits, Nat.toDigitsCore, h0]
        rw [lhs, ih (n / 10) hdiv f _ hdivf, rhs,
          ih (n / 10) hdiv n _ (by omega)]
        simp

theorem decodeDigits_append_singleton (xs : List Char) (c : Char) :
    decodeDigits (xs ++ [c]) = 10 * decodeDigits xs + decodeDigit c := by
  unfold decodeDigits
  rw [List.foldl_append]
  rfl

theorem decodeDigits_toDigits (n : Nat) : decodeDigits (Nat.toDigits 10 n) = n := by
  induction n using Nat.strong_induction_on with
  | _ n ih =>
    by_cases h0 : n / 10 = 0
    · have hlt : n < 10 := by omega
      have hm : n % 10 = n := Nat.mod_eq_of_lt hlt
      simp [Nat.toDigits, Nat.toDigitsCore, h0, decodeDigits]
      rw [hm]
      exact decodeDigit_digitChar n hlt
    · have hn0 : 0 < n := by
        rcases Nat.eq_zero_or_pos n with h | h
        · exact absurd (by simp [h]) h0
        · exact h
      have hdiv : n / 10 < n := Nat.div_lt_self hn0 (by norm_num)
      have step : Nat.toDigits 10 n =
          Nat.toDigits 10 (n / 10) ++ [Nat.digitChar (n % 10)] := by
        have rhs : Nat.toDigits 10 n =
            Nat.toDigitsCore 10 n (n / 10) [Nat.digitChar (n % 10)] := by
          simp [Nat.toDigits, Nat.toDigitsCore, h0]
        rw [rhs, toDigitsCore_eq (n / 10) n _ hdiv]
      rw [step, decodeDigits_append_singleton, ih (n / 10) hdiv,
        decodeDigit_digitChar _ (Nat.mod_lt _ (by norm_num))]
      omega

theorem natRepr_inj : Function.Injective Nat.repr := by
  intro m n h
  unfold Nat.repr at h
  have hd := List.asString_inj.mp h
  have hm := decodeDigits_toDigits m
  rw [hd, decodeDigits_toDigits n] at hm
  exact hm.symm

/-! ### Collision resolution: specification lemmas -/

theorem candName_inj (base ext : String) :
    Function.Injective (candName base ext) := by
  intro i j h
  unfold candName at h
  have hd := congrArg String.data h
  simp only [String.data_append] at hd
  have h1 := List.append_cancel_right hd
  rw [List.append_assoc, List.append_assoc] at h1
  have h2 := List.append_cancel_left (List.append_cancel_left h1)
  have h3 : toString i = toString j := String.toList_inj.mp h2
  exact natRepr_inj h3

theorem exists_free_candidate (existing : List String) (base ext : String) :
    ∃ k, 1 ≤ k ∧ k ≤ existing.length + 1 ∧ candName base ext k ∉ existing := by
  by_contra hcon
  push_neg at hcon
  have hnd : ((List.range (existing.length + 1)).map
      (fun i => candName base ext (i + 1))).Nodup := by
    apply (List.nodup_range _).map
    intro a b hab
    have := candName_inj base ext hab
    omega
  have hsubset : ∀ x ∈ (List.range (existing.length + 1)).map
      (fun i => candName base ext (i + 1)), x ∈ existing := by
    rintro x hx
    rcases List.mem_map.mp hx with ⟨i, hi, rfl⟩
    have hiR := List.mem_range.mp hi
    exact hcon (i + 1) (by omega) (by omega)
  have h1 : ((List.range (existing.length + 1)).map
      (fun i => candName base ext (i + 1))).toFinset.card =
      existing.length + 1 := by
    rw [List.toFinset_card_of_nodup hnd]
    simp
  have h2 := Finset.card_le_card (fun x hx =>
    List.mem_toFinset.mpr (hsubset x (List.mem_toFinset.mp hx)))
  have h3 := existing.toFinset_card_le
  omega

theorem resolveAux_eq (existing : List String) (base ext : String) :
    ∀ (fuel i k : Nat), i ≤ k → k < i + fuel →
      candName base ext k ∉ existing →
      (∀ j, i ≤ j → j < k → candName base ext j ∈ existing) →
      resolveAux existing base ext fuel i = candName base ext k := by
  intro fuel
  induction fuel with
  | zero => intro i k h1 h2 _ _; omega
  | succ f ihf =>
    intro i k h1 h2 hk hbusy
    by_cases hi : candName base ext i ∈ existing
    · have hik : i ≠ k := fun he => hk (he ▸ hi)
      simp only [resolveAux, if_pos hi]
      exact ihf (i + 1) k (by omega) (by omega) hk
        (fun j hj1 hj2 => hbusy j (by omega) hj2)
    · have hki : k = i := by
        by_contra hne
        exact hi (hbusy i le_rfl (by omega))
      subst hki
      simp only [resolveAux, if_neg hi]

/-- C3: collision resolution yields the original base name if no file of
that name exists at the destination, and otherwise the first name of the
form `base_i + extension` (`i = 1, 2, …`) that does not exist there
(first-fit, unbounded retries). -/
theorem C3_collision_resolution (existing : List String) (name : String) :
    (name ∉ existing → resolve existing name = name) ∧
    (name ∈ existing → ∃ k, 1 ≤ k ∧
      resolve existing name = candName (splitext name).1 (splitext name).2 k ∧
      candName (splitext name).1 (splitext name).2 k ∉ existing ∧
      ∀ j, 1 ≤ j → j < k →
        candName (splitext name).1 (splitext name).2 j ∈ existing) := by
  constructor
  · intro h
    simp [resolve, h]
  · intro h
    rcases exists_free_candidate existing (splitext name).1 (splitext name).2 with
      ⟨k0, hk01, hk02, hk0free⟩
    have hex : ∃ k, 1 ≤ k ∧ candName (splitext name).1 (splitext name).2 k ∉ existing :=
      ⟨k0, hk01, hk0free⟩
    classical
    let P : Nat → Prop := fun k =>
      1 ≤ k ∧ candName (splitext name).1 (splitext name).2 k ∉ existing
    have hP : ∃ k, P k := hex
    refine ⟨Nat.find hP, (Nat.find_spec hP).1, ?_, (Nat.find_spec hP).2, ?_⟩
    · have hfind_le : Nat.find hP ≤ k0 := Nat.find_min' hP ⟨hk01, hk0free⟩
      rw [resolve, if_pos h]
      exact resolveAux_eq existing _ _ (existing.length + 1) 1 (Nat.find hP)
        (Nat.find_spec hP).1 (by omega) (Nat.find_spec hP).2
        (fun j hj1 hj2 => by
          have := Nat.find_min hP hj2
          simp only [P, not_and, not_not] at this
          exact this hj1)
    · intro j hj1 hj2
      have := Nat.find_min hP hj2
      simp only [P, not_and, not_not] at this
      exact this hj1

/-! ### The per-file loop: traces of a fold over `stepFile` -/

theorem foldl_stepFile_attempted (fails : String → Option String) (srcPath : String) :
    ∀ (sel : List String) (S : MoveState),
      (sel.foldl (stepFile fails srcPath) S).attempted = S.attempted ++ sel := by
  intro sel
  induction sel with
  | nil => intro S; simp
  | cons a as ih =>
    intro S
    rw [List.foldl_cons, ih]
    cases h : fails a <;> simp [stepFile, h]

theorem foldl_stepFile_movedSrc (fails : String → Option String) (srcPath : String) :
    ∀ (sel : List String) (S : MoveState),
      (sel.foldl (stepFile fails srcPath) S).movedSrc =
        S.movedSrc ++ sel.filter (fun f => (fails f).isNone) := by
  intro sel
  induction sel with
  | nil => intro S; simp
  | cons a as ih =>
    intro S
    rw [List.foldl_cons, ih]
    cases h : fails a <;> simp [stepFile, h, List.filter_cons]

theorem foldl_stepFile_moved (fails : String → Option String) (srcPath : String) :
    ∀ (sel : List String) (S : MoveState),
      (sel.foldl (stepFile fails srcPath) S).moved =
        S.moved + (sel.filter (fun f => (fails f).isNone)).length := by
  intro sel
  induction sel with
  | nil => intro S; simp
  | cons a as ih =>
    intro S
    rw [List.foldl_cons, ih]
    cases h : fails a
    · simp [stepFile, h, List.filter_cons]
      omega
    · simp [stepFile, h, List.filter_cons]

theorem foldl_stepFile_logs (fails : String → Option String) (srcPath : String) :
    ∀ (sel : List String) (S : MoveState),
      (sel.foldl (stepFile fails srcPath) S).logs =
        S.logs ++ sel.filterMap
          (fun f => (fails f).map (fun e => f ++ " の移動に失敗: " ++ e)) := by
  intro sel
  induction sel with
  | nil => intro S; simp
  | cons a as ih =>
    intro S
    rw [List.foldl_cons, ih]
    cases h : fails a <;> simp [stepFile, h, List.filterMap_cons]

/-! ### GUI registration: invariant lemmas -/

theorem add_folder_dest (abspath : String → String) (s : GuiState) (path : String) :
    (add_folder abspath s path).dest = s.dest := by
  unfold add_folder
  split_ifs <;> rfl

theorem add_folder_keeps_invariant (abspath : String → String) (s : GuiState)
    (path : String)
    (h : ∀ d, s.dest = some d → d ≠ "" ∧ ∀ p ∈ s.rows, abspath p ≠ abspath d) :
    ∀ d, (add_folder abspath s path).dest = some d →
      d ≠ "" ∧ ∀ p ∈ (add_folder abspath s path).rows, abspath p ≠ abspath d := by
  intro d hd
  rw [add_folder_dest] at hd
  rcases h d hd with ⟨hne, hrows⟩
  refine ⟨hne, ?_⟩
  unfold add_folder
  split_ifs with h1 h2 h3
  · exact hrows
  · exact hrows
  · exact hrows
  · intro p hp
    rcases List.mem_append.mp hp with hpold | hpnew
    · exact hrows p hpold
    · have hpeq : p = path := by simpa using hpnew
      subst hpeq
      intro habs
      apply h3
      constructor
      · simp [truthy, hd, hne]
      · rw [hd]
        simpa using habs

theorem select_dest_rows (s : GuiState) (path : String) :
    (select_dest s path).rows = s.rows := by
  unfold select_dest
  split_ifs <;> rfl

theorem runOps_selects_only (abspath : String → String) :
    ∀ (sels : List Op) (s : GuiState),
      (∀ o ∈ sels, ∃ p, o = Op.selectDest p) →
      (runOps abspath s sels).rows = s.rows ∧
      ((runOps abspath s sels).dest = s.dest ∨
        ∃ q, q ≠ "" ∧ (runOps abspath s sels).dest = some q) := by
  intro sels
  induction sels with
  | nil => intro s _; exact ⟨rfl, Or.inl rfl⟩
  | cons o os ih =>
    intro s hsel
    rcases hsel o (List.mem_cons_self o os) with ⟨p, rfl⟩
    have hstep : runOps abspath s (Op.selectDest p :: os) =
        runOps abspath (select_dest s p) os := rfl
    rw [hstep]
    rcases ih (select_dest s p) (fun o ho => hsel o (List.mem_cons_of_mem _ ho)) with
      ⟨hrows, hdest⟩
    refine ⟨by rw [hrows, select_dest_rows], ?_⟩
    by_cases hp : p = ""
    · rcases hdest with h1 | h1
      · left; rw [h1]; simp [select_dest, hp]
      · right; exact h1
    · rcases hdest with h1 | h1
      · right; exact ⟨p, hp, by rw [h1]; simp [select_dest, hp]⟩
      · right; exact h1

theorem runOps_adds_keep_invariant (abspath : String → String) :
    ∀ (adds : List Op) (s : GuiState),
      (∀ o ∈ adds, ∃ p, o = Op.addFolder p) →
      (∀ d, s.dest = some d → d ≠ "" ∧ ∀ p ∈ s.rows, abspath p ≠ abspath d) →
      ∀ d, (runOps abspath s adds).dest = some d →
        d ≠ "" ∧ ∀ p ∈ (runOps abspath s adds).rows, abspath p ≠ abspath d := by
  intro adds
  induction adds with
  | nil => intro s _ h; exact h
  | cons o os ih =>
    intro s hadd h
    rcases hadd o (List.mem_cons_self o os) with ⟨p, rfl⟩
    have hstep : runOps abspath s (Op.addFolder p :: os) =
        runOps abspath (add_folder abspath s p) os := rfl
    rw [hstep]
    exact ih (add_folder abspath s p) (fun o ho => hadd o (List.mem_cons_of_mem _ ho))
      (add_folder_keeps_invariant abspath s p h)

/-! ### `execute`: every row is processed -/

theorem foldl_stepRow_results (fails : String → Option String) (order : String)
    (shuffle : List String → List String) :
    ∀ (rows : List Row) (acc : ExecResult),
      (rows.foldl (stepRow fails order shuffle) acc).results.length =
        acc.results.length + rows.length := by
  intro rows
  induction rows with
  | nil => intro acc; simp
  | cons r rs ih =>
    intro acc
    rw [List.foldl_cons, ih]
    simp [stepRow]
    omega

theorem execute_results_length (fails : String → Option String) (order : String)
    (shuffle : List String → List String) (dest : Option String)
    (destNames : List String) (rows : List Row) (h : truthy dest = true) :
    (execute fails order shuffle dest destNames rows).results.length =
      rows.length := by
  unfold execute
  rw [if_neg (by simp [h])]
  simp [foldl_stepRow_results]

/-! ## Claim theorems -/

/-- C3 witness: a destination already containing `photo.jpg` and
`photo_1.jpg` makes `photo.jpg` resolve to `photo_2.jpg`. -/
theorem C3_witness :
    "photo.jpg" ∈ ["photo.jpg", "photo_1.jpg"] ∧
    resolve ["photo.jpg", "photo_1.jpg"] "photo.jpg" = "photo_2.jpg" ∧
    (∃ k, 1 ≤ k ∧
      resolve ["photo.jpg", "photo_1.jpg"] "photo.jpg" =
        candName (splitext "photo.jpg").1 (splitext "photo.jpg").2 k ∧
      candName (splitext "photo.jpg").1 (splitext "photo.jpg").2 k ∉
        ["photo.jpg", "photo_1.jpg"] ∧
      ∀ j, 1 ≤ j → j < k →
        candName (splitext "photo.jpg").1 (splitext "photo.jpg").2 j ∈
          ["photo.jpg", "photo_1.jpg"]) :=
  ⟨by decide, by decide,
    (C3_collision_resolution ["photo.jpg", "photo_1.jpg"] "photo.jpg").2 (by decide)⟩

/-- C4: `get_amount` returns `max(0, min(requested, available))`; for all
integers `requested` and all `available ≥ 0` the result lies in
`[0, available]`, the clamp is idempotent, and non-numeric input
(`ValueError`, modelled as `none`) is treated as `0`. -/
theorem C4_clamp_properties (r : Int) (a : Nat) :
    get_amount (some r) a = max 0 (min r (a : Int)) ∧
    0 ≤ get_amount (some r) a ∧
    get_amount (some r) a ≤ (a : Int) ∧
    clampAmount (clampAmount r a) a = clampAmount r a ∧
    get_amount none a = 0 := by
  have ha : (0 : Int) ≤ (a : Int) := Int.natCast_nonneg a
  refine ⟨rfl, le_max_left _ _, ?_, ?_, ?_⟩
  · exact max_le ha (min_le_right _ _)
  · show max 0 (min (max 0 (min r (a : Int))) (a : Int)) = max 0 (min r (a : Int))
    have h1 : max 0 (min r (a : Int)) ≤ (a : Int) := max_le ha (min_le_right _ _)
    rw [min_eq_left h1, max_eq_right (le_max_left _ _)]
  · show max 0 (min 0 (a : Int)) = 0
    rw [min_eq_left ha, max_self]

/-- C6: with no destination selected, `execute` logs the
select-a-destination message and stops: no row is processed and the
destination contents are untouched. -/
theorem C6_missing_dest_aborts (fails : String → Option String) (order : String)
    (shuffle : List String → List String) (destNames : List String)
    (rows : List Row) (dest : Option String) (h : truthy dest = false) :
    execute fails order shuffle dest destNames rows =
      { logs := ["移動先フォルダを選択してください"], results := [], finalDest := destNames } := by
  unfold execute
  rw [if_pos h]

/-- C6 witness: the abort at `dest = none` on a concrete row list. -/
theorem C6_witness :
    execute failsA "name" id none [] [rowAB] =
      { logs := ["移動先フォルダを選択してください"], results := [], finalDest := [] } :=
  C6_missing_dest_aborts failsA "name" id [] [rowAB] none rfl

/-- C8: a source row whose clamped amount is zero is skipped with a log
notice, moves nothing and mutates nothing, and `execute` still processes
every row. -/
theorem C8_zero_amount_skip (fails : String → Option String) (order : String)
    (shuffle : List String → List String) (destNames : List String) (row : Row)
    (dest : Option String) (rows : List Row)
    (h : (get_amount row.input row.available).toNat = 0) :
    move_from_row fails order shuffle destNames row =
      { destNames := destNames
        srcEntries := row.entries
        moved := 0
        movedSrc := []
        attempted := []
        logs := [row.path ++ ": 移動枚数が0のためスキップ"] } ∧
    (truthy dest = true →
      (execute fails order shuffle dest destNames rows).results.length =
        rows.length) := by
  constructor
  · unfold move_from_row
    rw [if_pos h]
  · intro ht
    exact execute_results_length fails order shuffle dest destNames rows ht

/-- C8 witness: a concrete zero-amount row is skipped, and a run over two
rows (the zero one and another) still reports two outcomes. -/
theorem C8_witness :
    move_from_row failsA "name" id [] rowZero =
      { destNames := []
        srcEntries := rowZero.entries
        moved := 0
        movedSrc := []
        attempted := []
        logs := ["s: 移動枚数が0のためスキップ"] } ∧
    (execute failsA "name" id (some "d") [] [rowZero, rowAB]).results.length = 2 := by
  have h := C8_zero_amount_skip failsA "name" id [] rowZero (some "d") [rowZero, rowAB]
    (by decide)
  exact ⟨h.1, h.2 (by decide)⟩

/-- C9: in name mode the files processed are exactly the first `amount`
entries of the freshly listed (sorted) images; on the scenario folder
`a.png, b.jpg, c.webp` with amount 2 the selection is `[a.png, b.jpg]`. -/
theorem C9_name_mode_selection :
    (∀ (fails : String → Option String) (shuffle : List String → List String)
      (destNames : List String) (row : Row),
      (move_from_row fails "name" shuffle destNames row).attempted =
        (list_images row.path row.entries).take
          (get_amount row.input row.available).toNat) ∧
    (move_from_row (fun _ => none) "name" id [] rowABC).attempted =
      ["src/a.png", "src/b.jpg"] := by
  constructor
  · intro fails shuffle destNames row
    unfold move_from_row
    by_cases h : (get_amount row.input row.available).toNat = 0
    · rw [if_pos h, h]
      simp
    · rw [if_neg h]
      simp only [foldl_stepFile_attempted]
      rw [if_neg (by decide : ¬ ("name" = "random"))]
      simp
  · decide

/-- C10: hidden entries (name beginning with a dot) never appear in
`list_images`, whatever their extension. -/
theorem C10_hidden_excluded (d n : String) (entries : List Entry)
    (h : hiddenName n = true) : joinPath d n ∉ list_images d entries := by
  intro hmem
  rcases mem_list_images.mp hmem with ⟨e, _, hhid, _, hpe⟩
  have hn : n = e.name := joinPath_inj hpe
  rw [hn] at h
  rw [h] at hhid
  exact Bool.noConfusion hhid

/-- C10 witness: `.photo.jpg` is not listed even though its extension is
`.jpg` and it sits next to a listed image. -/
theorem C10_witness :
    joinPath "d" ".photo.jpg" ∉
      list_images "d" [⟨".photo.jpg", true⟩, ⟨"a.jpg", true⟩] :=
  C10_hidden_excluded "d" ".photo.jpg" [⟨".photo.jpg", true⟩, ⟨"a.jpg", true⟩]
    (by decide)

/-- C2 counterexample: on a directory containing a subdirectory named
`sub.jpg` and a hidden image file `.h.jpg`, `list_images` differs from
the claim's description (files only, hidden not excluded): the code
lists the subdirectory and omits the hidden file. -/
theorem C2_counterexample :
    list_images "d" [⟨"sub.jpg", false⟩, ⟨".h.jpg", true⟩] ≠
      list_images_claim "d" [⟨"sub.jpg", false⟩, ⟨".h.jpg", true⟩] := by
  decide

/-- C2 (amended): `list_images` returns exactly the non-hidden direct
children — files or directories alike — whose lower-cased extension is
in the image-extension set, and no others, sorted ascending by full path
string (and duplicate-free when the directory's entry names are). -/
theorem C2_list_images_characterization (d : String) (entries : List Entry)
    (hnd : (entries.map Entry.name).Nodup) :
    List.Sorted (fun a b : String => a ≤ b) (list_images d entries) ∧
    (list_images d entries).Nodup ∧
    ∀ p, p ∈ list_images d entries ↔
      ∃ e, e ∈ entries ∧ hiddenName e.name = false ∧
        is_image_file (joinPath d e.name) = true ∧ p = joinPath d e.name :=
  ⟨list_images_sorted d entries, list_images_nodup d entries hnd,
    fun _ => mem_list_images⟩

/-- C2 witness: the characterization applied to a concrete mixed
directory. -/
theorem C2_witness :
    ([⟨"b.JPG", true⟩, ⟨"a.png", true⟩, ⟨"x.txt", true⟩].map Entry.name).Nodup ∧
    ("d/a.png" ∈ list_images "d" [⟨"b.JPG", true⟩, ⟨"a.png", true⟩, ⟨"x.txt", true⟩] ↔
      ∃ e, e ∈ [Entry.mk "b.JPG" true, Entry.mk "a.png" true, Entry.mk "x.txt" true] ∧
        hiddenName e.name = false ∧
        is_image_file (joinPath "d" e.name) = true ∧
        "d/a.png" = joinPath "d" e.name) :=
  ⟨by decide,
    (C2_list_images_characterization "d"
      [⟨"b.JPG", true⟩, ⟨"a.png", true⟩, ⟨"x.txt", true⟩] (by decide)).2.2 "d/a.png"⟩

/-- C1 counterexample: `add_folder "a"` then `select_dest "a"` reaches a
state whose destination equals a registered source folder's path, because
`select_dest` performs no check against the registered rows. -/
theorem C1_counterexample :
    (runOps id initState [Op.addFolder "a", Op.selectDest "a"]).dest = some "a" ∧
    "a" ∈ (runOps id initState [Op.addFolder "a", Op.selectDest "a"]).rows := by
  decide

/-- C1 (amended): the invariant holds for every operation sequence in
which all `select_dest` operations precede all `add_folder` operations:
`add_folder` refuses any path `os.path.abspath`-equal to the current
destination, so no registered source path can equal the destination. -/
theorem C1_invariant_when_dest_selected_first (abspath : String → String)
    (sels adds : List Op)
    (hsels : ∀ o ∈ sels, ∃ p, o = Op.selectDest p)
    (hadds : ∀ o ∈ adds, ∃ p, o = Op.addFolder p) :
    ∀ d, (runOps abspath initState (sels ++ adds)).dest = some d →
      d ∉ (runOps abspath initState (sels ++ adds)).rows := by
  have hsplit : runOps abspath initState (sels ++ adds) =
      runOps abspath (runOps abspath initState sels) adds := by
    unfold runOps
    rw [List.foldl_append]
  rcases runOps_selects_only abspath sels initState hsels with ⟨hrows, hdest⟩
  have hinv : ∀ d, (runOps abspath initState sels).dest = some d →
      d ≠ "" ∧ ∀ p ∈ (runOps abspath initState sels).rows,
        abspath p ≠ abspath d := by
    intro d hd
    constructor
    · rcases hdest with h1 | h1
      · rw [h1] at hd
        exact Option.noConfusion hd
      · rcases h1 with ⟨q, hq, hq2⟩
        rw [hq2] at hd
        have : q = d := Option.some.inj hd
        rw [← this]
        exact hq
    · rw [hrows]
      intro p hp
      exact absurd hp (List.not_mem_nil p)
  have hfinal := runOps_adds_keep_invariant abspath adds _ hadds hinv
  intro d hd
  rw [hsplit] at hd ⊢
  rcases hfinal d hd with ⟨_, hrows2⟩
  intro hdin
  exact hrows2 d hdin rfl

/-- C1 witness: selecting destination `d` first, then trying to add `d`
(refused) and `a` (accepted), leaves `d` outside the registered rows. -/
theorem C1_invariant_witness :
    "d" ∉ (runOps id initState
      ([Op.selectDest "d"] ++ [Op.addFolder "d", Op.addFolder "a"])).rows :=
  C1_invariant_when_dest_selected_first id [Op.selectDest "d"]
    [Op.addFolder "d", Op.addFolder "a"]
    (by intro o ho; simp at ho; exact ⟨"d", ho⟩)
    (by
      intro o ho
      simp at ho
      rcases ho with h | h
      · exact ⟨"d", h⟩
      · exact ⟨"a", h⟩)
    "d" (by decide)

/-- C5: a per-file move failure is caught and logged with its reason and
stops nothing: the files attempted do not depend on which moves fail, the
`moved` count of the report counts exactly the successful moves, every
failure is logged with its reason, the per-row report line closes the
row's log, and `execute` still processes every row. -/
theorem C5_failure_isolation (fails fails2 : String → Option String)
    (order : String) (shuffle : List String → List String)
    (destNames : List String) (row : Row) (dest : Option String)
    (rows : List Row) (hd : truthy dest = true) :
    (move_from_row fails order shuffle destNames row).moved =
      ((move_from_row fails order shuffle destNames row).attempted.filter
        (fun f => (fails f).isNone)).length ∧
    (move_from_row fails2 order shuffle destNames row).attempted =
      (move_from_row fails order shuffle destNames row).attempted ∧
    (∀ f e, f ∈ (move_from_row fails order shuffle destNames row).attempted →
      fails f = some e →
      (f ++ " の移動に失敗: " ++ e) ∈
        (move_from_row fails order shuffle destNames row).logs) ∧
    ((get_amount row.input row.available).toNat ≠ 0 →
      (move_from_row fails order shuffle destNames row).logs.getLast? =
        some (row.path ++ ": " ++
          toString (move_from_row fails order shuffle destNames row).moved ++ "/" ++
          toString (get_amount row.input row.available).toNat ++ " 枚を移動")) ∧
    (execute fails order shuffle dest destNames rows).results.length =
      rows.length := by
  by_cases h : (get_amount row.input row.available).toNat = 0
  · refine ⟨?_, ?_, ?_, ?_, ?_⟩
    · unfold move_from_row
      rw [if_pos h]
      rfl
    · unfold move_from_row
      rw [if_pos h, if_pos h]
    · unfold move_from_row
      rw [if_pos h]
      intro f e hf
      exact absurd hf (List.not_mem_nil f)
    · intro hne
      exact absurd h hne
    · exact execute_results_length fails order shuffle dest destNames rows hd
  · refine ⟨?_, ?_, ?_, ?_, ?_⟩
    · unfold move_from_row
      rw [if_neg h]
      simp only [foldl_stepFile_moved, foldl_stepFile_attempted]
      simp
    · unfold move_from_row
      rw [if_neg h, if_neg h]
      simp only [foldl_stepFile_attempted]
    · unfold move_from_row
      rw [if_neg h]
      simp only [foldl_stepFile_attempted, foldl_stepFile_logs]
      intro f e hf hfe
      simp only [List.nil_append, List.mem_append]
      left
      exact List.mem_filterMap.mpr ⟨f, by simpa using hf, by rw [hfe]; rfl⟩
    · intro _
      unfold move_from_row
      rw [if_neg h]
      simp only [foldl_stepFile_moved, foldl_stepFile_logs]
      rw [List.getLast?_concat]
    · exact execute_results_length fails order shuffle dest destNames rows hd

/-- C5 witness: with a failure oracle failing exactly on `s/a.jpg`, a run
over the two-image row reports one move, logs the failure with its
reason, and `execute` still reports an outcome for the row. -/
theorem C5_witness :
    truthy (some "d") = true ∧
    (move_from_row failsA "name" id [] rowAB).moved = 1 ∧
    ("s/a.jpg の移動に失敗: err" ∈ (move_from_row failsA "name" id [] rowAB).logs) ∧
    (execute failsA "name" id (some "d") [] [rowAB]).results.length = 1 := by
  have h := C5_failure_isolation failsA failsA "name" id [] rowAB (some "d") [rowAB]
    (by decide)
  refine ⟨by decide, ?_, ?_, ?_⟩
  · rw [h.1]
    decide
  · exact h.2.2.1 "s/a.jpg" "err" (by decide) (by decide)
  · exact h.2.2.2.2

/-- C7: in random mode with the requested amount equal to the number of
available images and every move succeeding, the set of source files moved
is exactly the set listed, whatever permutation the shuffle produced. -/
theorem C7_random_full_move (fails : String → Option String)
    (shuffle : List String → List String) (destNames : List String) (row : Row)
    (hperm : (shuffle (list_images row.path row.entries)).Perm
      (list_images row.path row.entries))
    (hamount : (get_amount row.input row.available).toNat =
      (list_images row.path row.entries).length)
    (hok : ∀ f, fails f = none) :
    ∀ f, f ∈ (move_from_row fails "random" shuffle destNames row).movedSrc ↔
      f ∈ list_images row.path row.entries := by
  intro f
  unfold move_from_row
  by_cases h0 : (get_amount row.input row.available).toNat = 0
  · rw [if_pos h0]
    have hlen0 : (list_images row.path row.entries).length = 0 := by omega
    have hnil := List.length_eq_zero.mp hlen0
    rw [hnil]
  · rw [if_neg h0]
    simp only [foldl_stepFile_movedSrc]
    rw [if_pos trivial]
    have htake : (shuffle (list_images row.path row.entries)).take
        ((get_amount row.input row.available).toNat) =
        shuffle (list_images row.path row.entries) := by
      apply List.take_of_length_le
      rw [hperm.length_eq]
      omega
    rw [htake]
    have hfilter : (shuffle (list_images row.path row.entries)).filter
        (fun f => (fails f).isNone) =
        shuffle (list_images row.path row.entries) := by
      apply List.filter_eq_self.mpr
      intro a _
      rw [hok a]
      rfl
    rw [hfilter]
    simp only [List.nil_append]
    exact hperm.mem_iff

/-- C7 witness: reversing the two-image listing and moving both files
moves exactly the listed set. -/
theorem C7_witness :
    (List.reverse (list_images rowAB.path rowAB.entries)).Perm
      (list_images rowAB.path rowAB.entries) ∧
    ("s/a.jpg" ∈ (move_from_row (fun _ => none) "random" List.reverse [] rowAB).movedSrc ↔
      "s/a.jpg" ∈ list_images rowAB.path rowAB.entries) :=
  ⟨by decide,
    C7_random_full_move (fun _ => none) List.reverse [] rowAB (by decide) (by decide)
      (fun _ => rfl) "s/a.jpg"⟩

end ImageShuffler
